import Mathlib

/-!
# Verification of the ChatTerminal event-reconciliation core

Shallow embedding of `src/frontend/src/components/ChatTerminal.jsx` and
`src/frontend/src/utils/chatUtils.js`: the message store (`upsertMessages`),
the polling step (`fetchAgentResponses`), and the optimistic-submission
handling inside `handleSubmit`.

Modelling conventions:
* JS `Date` values are modelled as `Int` (milliseconds since epoch);
  ISO-8601 cursor strings compare the same way as their times, so the
  cursor is also an `Int`.
* A JS value that may be `undefined`/`null`/unparseable is an `Option`.
  `ensureDate` collapses "absent or unparseable date" into `none`.
* The insertion-ordered JS `Map` is a `List Message` with unique ids:
  `Map.set` on an existing key updates the value in place, on a fresh key
  appends at the end (`setById`).
* `Array.prototype.sort` is stable (ES2019), so it is modelled by the
  stable `List.insertionSort`.
* Display-only fields (`progressPercent`, `taskTitle`, `taskStatus`,
  `agentId`) are omitted; no claim mentions them.
-/

namespace ChatTerminal

/-- A stored chat message (one entry of the `messages` React state).
`timestamp` is always a concrete time once stored (`ensureDate` never
returns a non-Date in the source). -/
structure Message where
  id : String
  sender : String
  text : String
  timestamp : Int
  taskId : Option String
  isThinking : Bool
  isError : Bool
deriving DecidableEq, Repr

/-- An element of the `incoming` array passed to `upsertMessages`:
`id` may be missing (`!msg || msg.id === undefined || msg.id === null`
skips the element; a `null` array element behaves exactly like an element
with no id, so both are modelled by `id = none`), and `timestamp` may be
missing or unparseable. -/
structure Incoming where
  id : Option String
  sender : String
  text : String
  timestamp : Option Int
  taskId : Option String
  isThinking : Bool
  isError : Bool
deriving DecidableEq, Repr

/-- Function `ensureDate` from `chatUtils.js`: a valid date value is kept,
anything absent or unparseable becomes the current time `now`. -/
def ensureDate (now : Int) (ts : Option Int) : Int :=
  ts.getD now

/-- JS `parseInt` on a string: optional leading spaces, optional sign,
then the longest digit prefix; `none` models `NaN` (no digits). -/
def takeDigits : List Char → List Nat
  | c :: cs => if c.isDigit then (c.toNat - 48) :: takeDigits cs else []
  | [] => []

def parseIntJS (s : String) : Option Int :=
  let cs := s.data.dropWhile (fun c => c = ' ')
  let signRest : Int × List Char :=
    match cs with
    | '-' :: r => (-1, r)
    | '+' :: r => (1, r)
    | r => (1, r)
  match takeDigits signRest.2 with
  | [] => none
  | ds => some (signRest.1 * (ds.foldl (fun a d => a * 10 + d) 0 : Nat))

/-- The sort key of the comparator in `upsertMessages`:
`parseInt(msg.taskId) || 0` (absent or unparseable task id gives `NaN`,
and `NaN || 0` as well as `0 || 0` give `0`). -/
def taskKey (m : Message) : Int :=
  (m.taskId.bind parseIntJS).getD 0

/-- The comparator `(a, b) => taskIdA - taskIdB` as a `≤` relation. -/
def keyLE (a b : Message) : Prop :=
  taskKey a ≤ taskKey b

instance : DecidableRel keyLE := fun a b => by
  unfold keyLE; infer_instance

instance : IsTotal Message keyLE :=
  ⟨fun a b => le_total (taskKey a) (taskKey b)⟩

instance : IsTrans Message keyLE :=
  ⟨fun _ _ _ hab hbc => le_trans hab hbc⟩

/-- Models `Map.get(id)`: lookup by id in the insertion-ordered store. -/
def lookupId (l : List Message) (i : String) : Option Message :=
  l.find? (fun x => x.id == i)

/-- Models `Map.set(id, msg)`: update in place if the id is present, otherwise
append at the end. -/
def setById : List Message → Message → List Message
  | [], m => [m]
  | x :: xs, m => if x.id = m.id then m :: xs else x :: setById xs m

/-- Models `new Map(prev.map((msg) => [msg.id, msg]))`. -/
def buildMap (prev : List Message) : List Message :=
  prev.foldl setById []

/-- Models the spread `{ ...msg, timestamp }`: the stored record produced from an incoming
element whose id resolved to `i` and whose timestamp was resolved to `ts`. -/
def msgOfIncoming (m : Incoming) (i : String) (ts : Int) : Message :=
  ⟨i, m.sender, m.text, ts, m.taskId, m.isThinking, m.isError⟩

/-- The timestamp chosen for an incoming element: with `restampNew`, an
existing entry keeps its timestamp and a new id is stamped with the
current time; otherwise `ensureDate(msg.timestamp)`. -/
def resolveTs (now : Int) (restampNew : Bool) (map : List Message)
    (msg : Incoming) (i : String) : Int :=
  if restampNew then
    match lookupId map i with
    | some existing => existing.timestamp
    | none => now
  else ensureDate now msg.timestamp

/-- The body of the `incoming.forEach` loop of `upsertMessages`: skip
id-less elements, then `map.set(msg.id, { ...msg, timestamp })`. -/
def insertStep (now : Int) (restampNew : Bool) (map : List Message)
    (msg : Incoming) : List Message :=
  match msg.id with
  | none => map
  | some i =>
    setById map (msgOfIncoming msg i (resolveTs now restampNew map msg i))

/-- The id-keyed map after merging the whole batch. -/
def mergedMap (now : Int) (restampNew : Bool) (incoming : List Incoming)
    (prev : List Message) : List Message :=
  incoming.foldl (insertStep now restampNew) (buildMap prev)

/-- Models `Array.from(map.values()).sort((a, b) => taskIdA - taskIdB)`:
a stable sort by `taskKey`. -/
def orderedView (l : List Message) : List Message :=
  l.insertionSort keyLE

/-- Models `sortedMessages.slice(-50)`: the last 50 entries (everything when the
list is shorter). -/
def sliceLast50 (l : List Message) : List Message :=
  l.drop (l.length - 50)

/-- Function `upsertMessages` from `ChatTerminal.jsx` (the reducer applied to the
previous store): empty batches return the store unchanged, otherwise the
batch is merged into the id-keyed map, sorted by task id and truncated to
the last 50 entries. -/
def upsertMessages (now : Int) (restampNew : Bool) (incoming : List Incoming)
    (prev : List Message) : List Message :=
  if incoming.isEmpty then prev
  else sliceLast50 (orderedView (mergedMap now restampNew incoming prev))

/-! ## handleSubmit -/

/-- The optimistic user message created in `handleSubmit`. -/
def userMessage (now : Int) (taskText : String) : Incoming :=
  ⟨some ("user-" ++ toString now), "user", taskText, some now, none, false, false⟩

/-- The transient "thinking" placeholder created in `handleSubmit`. -/
def thinkingMessage (now : Int) : Incoming :=
  ⟨some ("thinking-" ++ toString now), "system", "Sending task to agents...",
    some now, none, true, false⟩

/-- The system error message inserted by the `catch` block of
`handleSubmit`. -/
def errorMessage (now : Int) (failureText : String) : Incoming :=
  ⟨some ("error-" ++ toString now), "system", "Error: " ++ failureText,
    some now, none, false, true⟩

/-- Models `data.message_id || msg.id`: a missing or empty server id keeps the
local id. -/
def resolveId (mid : Option String) (own : String) : String :=
  match mid with
  | some s => if s = "" then own else s
  | none => own

/-- The `setMessages` update run when the submission response arrives
(lines 220-230): drop the thinking placeholder, then rename the optimistic
message (found by its local id) to the server-assigned id. -/
def reconcileAck (mid : Option String) (userId : String)
    (prev : List Message) : List Message :=
  (prev.filter (fun m => !m.isThinking)).map (fun m =>
    if m.id = userId then { m with id := resolveId mid m.id } else m)

/-- The `catch` block of `handleSubmit`: drop the thinking placeholder and
upsert a fresh system error message. -/
def handleSubmitFailure (now : Int) (failureText : String)
    (prev : List Message) : List Message :=
  upsertMessages now false [errorMessage now failureText]
    (prev.filter (fun m => !m.isThinking))

/-! ## fetchAgentResponses -/

/-- One raw element of `data.messages` from
`GET /chat/agent-responses`. `task?.id || task_id` is collapsed into the
single field `task_id`; display-only fields are omitted. -/
structure RawItem where
  id : Option String
  message : Option String
  timestamp : Option Int
  task_id : Option String
deriving DecidableEq, Repr

/-- Function `buildAgentMessage` from `chatUtils.js`: drop items without a usable
(truthy) id, default the text to the empty string, normalize the
timestamp. The sender of a normalized poll item is always `"agent"`. -/
def buildAgentMessage (now : Int) (item : RawItem) : Option Incoming :=
  match item.id with
  | none => none
  | some i =>
    if i = "" then none
    else some ⟨some i, "agent", item.message.getD "",
      some (ensureDate now item.timestamp), item.task_id, false, false⟩

/-- The component state touched by `fetchAgentResponses`:
the message store, `lastFetchTimeRef` (the cursor), `historyError` and
`historyLoading`. -/
structure FetchState where
  store : List Message
  cursor : Option Int
  historyError : Option String
  historyLoading : Bool
deriving DecidableEq, Repr

/-- The possible outcomes of one poll:
a transport failure (`fetch` rejected), a response without a JSON
content-type, a JSON response with a non-success status (carrying the
optional `detail` field), or a successful JSON response with its
`messages` array. -/
inductive FetchResponse where
  | networkError (msg : String)
  | nonJson
  | httpError (detail : Option String)
  | ok (messages : List RawItem)
deriving DecidableEq, Repr

def FetchResponse.isFailure : FetchResponse → Bool
  | .ok _ => false
  | _ => true

/-- Models `data.detail || 'Failed to load agent responses'`. -/
def httpErrorText (detail : Option String) : String :=
  match detail with
  | some d => if d = "" then "Failed to load agent responses" else d
  | none => "Failed to load agent responses"

/-- Models `error?.message ? String(error.message) : 'Unable to load agent
responses'` in the catch block. -/
def catchText (msg : String) : String :=
  if msg = "" then "Unable to load agent responses" else msg

/-- One run of `fetchAgentResponses` (lines 74-124), given the abstract
outcome of the network request. When the abort flag is set, every path
returns before mutating any state. On failure only `historyError` (and
`historyLoading`) change. On success the normalized batch is merged with
`restampNew = !isInitial`, the cursor becomes the timestamp of the first
normalized message of a non-empty batch, and the error banner is
cleared. -/
def fetchAgentResponses (now : Int) (isInitial : Bool) (abort : Bool)
    (resp : FetchResponse) (s : FetchState) : FetchState :=
  if abort then s
  else
    match resp with
    | .networkError msg =>
      { s with historyError := some (catchText msg), historyLoading := false }
    | .nonJson =>
      { s with historyError := some "Received non-JSON response from server",
               historyLoading := false }
    | .httpError detail =>
      { s with historyError := some (catchText (httpErrorText detail)),
               historyLoading := false }
    | .ok msgs =>
      let normalized := msgs.filterMap (buildAgentMessage now)
      if normalized.isEmpty then
        { s with historyError := none, historyLoading := false }
      else
        { store := upsertMessages now (!isInitial) normalized s.store,
          cursor :=
            match normalized.head? with
            | some m =>
              match m.timestamp with
              | some t => some t
              | none => s.cursor
            | none => s.cursor,
          historyError := none,
          historyLoading := false }

/-- The `since` query parameter of the next fetch: absent on the initial
fetch or while no cursor has been recorded, otherwise the cursor. -/
def sinceParam (isInitial : Bool) (cursor : Option Int) : Option Int :=
  if isInitial then none else cursor

/-! ## Specification-side ordering (for claim C2)

Modelled from the spec's words (§4.4 Ordering Policy), *not* from the
source: primary key `causalSequence` when both events have one, fallback
`orderingKey`, tertiary tie-break the lexicographic `id`. -/

/-- The spec's optional `causalSequence` of an event: its task ordinal. -/
def causalSequence (m : Message) : Option Int :=
  m.taskId.bind parseIntJS

/-- Modelled from the spec: the three-level comparison of §4.4. -/
def specCmp (a b : Message) : Ordering :=
  (match causalSequence a, causalSequence b with
   | some x, some y => compare x y
   | _, _ => Ordering.eq).then
    ((compare a.timestamp b.timestamp).then (compare a.id b.id))

/-- Modelled from the spec: the ordered view §4.4 describes, as a stable
sort by `specCmp`. -/
def specOrderedView (l : List Message) : List Message :=
  l.insertionSort (fun a b => specCmp a b ≠ Ordering.gt)

/-! ## Concrete instances used in counterexamples and witnesses -/

/-- A stored agent message with empty text and no task id. -/
def mkMsg (i : String) (ts : Int) : Message :=
  ⟨i, "agent", "", ts, none, false, false⟩

/-- An incoming agent message with empty text and no task id. -/
def mkInc (i : String) (ts : Option Int) : Incoming :=
  ⟨some i, "agent", "", ts, none, false, false⟩

/-- Two stored events without task ids, insertion order `[cA, cB]`,
timestamps 10 and 5. -/
def cA : Message := ⟨"a", "agent", "", 10, none, false, false⟩

def cB : Message := ⟨"b", "agent", "", 5, none, false, false⟩

/-- A batch of 51 incoming events that all lack a task id (all tied at
sort key 0), ids `"0"`..`"50"`. -/
def batch51 : List Incoming :=
  (List.range 51).map (fun n => mkInc (toString n) (some 0))

/-- An optimistic submission awaiting its ack. -/
def tempMsg : Message := ⟨"temp-99", "user", "hi", 100, none, false, false⟩

/-- The same logical submission as already persisted server-side and
delivered by a background poll under its canonical id. -/
def pollMsg : Message := ⟨"m-500", "agent", "hi", 200, none, false, false⟩

/-- A store holding an optimistic user message and a thinking
placeholder, as `handleSubmit` leaves it while the request is in
flight. -/
def inFlightStore : List Message :=
  [⟨"user-1", "user", "task", 100, none, false, false⟩,
   ⟨"thinking-1", "system", "Sending task to agents...", 101, none, true, false⟩]

/-- The initial component state. -/
def s0 : FetchState := ⟨[], none, none, true⟩

/-- A list of 51 stored events with distinct numeric task ids 0..50. -/
def store51 : List Message :=
  (List.range 51).map (fun n => ⟨toString n, "agent", "", 0, some (toString n), false, false⟩)

def s51a : Message := ⟨"0", "agent", "", 0, some "0", false, false⟩

def s51b : Message := ⟨"1", "agent", "", 0, some "1", false, false⟩

def rawA : RawItem := ⟨some "a", some "x", some 5, none⟩

def rawB : RawItem := ⟨some "b", some "y", some 9, none⟩

/-! ## Store lemmas -/

theorem lookupId_cons {x : Message} {xs : List Message} {i : String} :
    lookupId (x :: xs) i = if x.id = i then some x else lookupId xs i := by
  by_cases h : x.id = i
  · simp [lookupId, List.find?_cons_of_pos, h]
  · simp [lookupId, List.find?_cons_of_neg, h]

theorem lookupId_eq_none_iff {l : List Message} {i : String} :
    lookupId l i = none ↔ i ∉ l.map Message.id := by
  induction l with
  | nil => simp [lookupId]
  | cons x xs ih =>
    rw [lookupId_cons]
    by_cases h : x.id = i
    · simp [h]
    · simp only [h, if_false, List.map_cons, List.mem_cons, ih]
      constructor
      · intro hni hmem
        rcases hmem with he | hmem
        · exact h he.symm
        · exact hni hmem
      · intro hni hmem
        exact hni (Or.inr hmem)

theorem lookupId_isSome_of_mem {l : List Message} {i : String}
    (h : i ∈ l.map Message.id) : ∃ e, lookupId l i = some e := by
  cases he : lookupId l i with
  | none => exact absurd (lookupId_eq_none_iff.mp he) (not_not_intro h)
  | some e => exact ⟨e, rfl⟩

theorem lookupId_mem {l : List Message} {i : String} {e : Message}
    (h : lookupId l i = some e) : e ∈ l ∧ e.id = i := by
  refine ⟨List.mem_of_find?_eq_some h, ?_⟩
  have := List.find?_some h
  simpa using this

theorem mem_lookupId {l : List Message} {e : Message}
    (hnd : (l.map Message.id).Nodup) (he : e ∈ l) :
    lookupId l e.id = some e := by
  induction l with
  | nil => cases he
  | cons x xs ih =>
    rw [lookupId_cons]
    rcases List.mem_cons.mp he with rfl | hmem
    · simp
    · have hx : x.id ≠ e.id := by
        intro hxe
        exact (List.nodup_cons.mp hnd).1 (hxe ▸ List.mem_map_of_mem Message.id hmem)
      simp [hx, ih (List.nodup_cons.mp hnd).2 hmem]

theorem lookupId_perm {l1 l2 : List Message} (p : l1.Perm l2)
    (hnd : (l1.map Message.id).Nodup) (i : String) :
    lookupId l1 i = lookupId l2 i := by
  have hnd2 : (l2.map Message.id).Nodup := ((p.map Message.id).nodup_iff).mp hnd
  cases h : lookupId l1 i with
  | none =>
    have : i ∉ l2.map Message.id := by
      intro hi
      exact lookupId_eq_none_iff.mp h (((p.map Message.id).mem_iff).mpr hi)
    exact (lookupId_eq_none_iff.mpr this).symm
  | some e =>
    obtain ⟨hmem, hid⟩ := lookupId_mem h
    have := mem_lookupId hnd2 (p.mem_iff.mp hmem)
    rw [hid] at this
    exact this.symm

theorem eq_of_ids_lookup_eq :
    ∀ {l1 l2 : List Message},
      l1.map Message.id = l2.map Message.id →
      (l1.map Message.id).Nodup →
      (∀ i, lookupId l1 i = lookupId l2 i) → l1 = l2
  | [], [], _, _, _ => rfl
  | [], _ :: _, hids, _, _ => by simp at hids
  | _ :: _, [], hids, _, _ => by simp at hids
  | a :: t1, b :: t2, hids, hnd, hlook => by
    obtain ⟨hab, htails⟩ := by
      simpa using hids
    have hhead : a = b := by
      have h1 : lookupId (a :: t1) a.id = some a := by
        rw [lookupId_cons]; simp
      have h2 : lookupId (b :: t2) a.id = some b := by
        rw [lookupId_cons]; simp [hab.symm]
      have := (hlook a.id).symm.trans h1
      rw [h2] at this
      exact (Option.some_inj.mp this).symm
    have htl : t1 = t2 := by
      refine eq_of_ids_lookup_eq htails (List.nodup_cons.mp hnd).2 (fun i => ?_)
      by_cases hi : i = a.id
      · subst hi
        have h1 : lookupId t1 a.id = none :=
          lookupId_eq_none_iff.mpr (List.nodup_cons.mp hnd).1
        have h2 : lookupId t2 a.id = none := by
          refine lookupId_eq_none_iff.mpr ?_
          rw [← htails]
          exact (List.nodup_cons.mp hnd).1
        rw [h1, h2]
      · have ha' : a.id ≠ i := fun ha => hi ha.symm
        have hb' : b.id ≠ i := fun hb => hi (hab.trans hb).symm
        have h1 := hlook i
        rw [lookupId_cons, lookupId_cons, if_neg ha', if_neg hb'] at h1
        exact h1
    rw [hhead, htl]

theorem setById_of_not_mem {l : List Message} {m : Message}
    (h : m.id ∉ l.map Message.id) : setById l m = l ++ [m] := by
  induction l with
  | nil => rfl
  | cons x xs ih =>
    have hx : x.id ≠ m.id := by
      intro hxm
      exact h (hxm ▸ List.mem_map_of_mem Message.id (List.mem_cons_self x xs))
    have hxs : m.id ∉ xs.map Message.id := fun hm => h (by simp [hm])
    simp [setById, hx, ih hxs]

theorem map_id_setById_of_mem {l : List Message} {m : Message}
    (h : m.id ∈ l.map Message.id) :
    (setById l m).map Message.id = l.map Message.id := by
  induction l with
  | nil => simp at h
  | cons x xs ih =>
    by_cases hx : x.id = m.id
    · simp [setById, hx]
    · have hxs : m.id ∈ xs.map Message.id := by
        rcases List.mem_map.mp h with ⟨y, hy, hyid⟩
        rcases List.mem_cons.mp hy with rfl | hys
        · exact absurd hyid hx
        · exact hyid ▸ List.mem_map_of_mem Message.id hys
      simp [setById, hx, ih hxs]

theorem nodup_setById {l : List Message} {m : Message}
    (h : (l.map Message.id).Nodup) :
    ((setById l m).map Message.id).Nodup := by
  by_cases hm : m.id ∈ l.map Message.id
  · rw [map_id_setById_of_mem hm]; exact h
  · rw [setById_of_not_mem hm]
    simp [List.nodup_append, h, hm]

theorem lookupId_setById_self (l : List Message) (m : Message) :
    lookupId (setById l m) m.id = some m := by
  induction l with
  | nil => simp [setById, lookupId_cons]
  | cons x xs ih =>
    by_cases hx : x.id = m.id
    · simp [setById, hx, lookupId_cons]
    · simp [setById, hx, lookupId_cons, ih]

theorem lookupId_setById_of_ne (l : List Message) (m : Message) {i : String}
    (h : i ≠ m.id) : lookupId (setById l m) i = lookupId l i := by
  have hm : m.id ≠ i := fun he => h he.symm
  induction l with
  | nil => simp [setById, lookupId_cons, hm, lookupId]
  | cons x xs ih =>
    by_cases hx : x.id = m.id
    · have hxi : x.id ≠ i := hx ▸ hm
      simp only [setById, if_pos hx, lookupId_cons, if_neg hm, if_neg hxi]
    · simp only [setById, if_neg hx, lookupId_cons]
      by_cases hxi : x.id = i
      · rw [if_pos hxi, if_pos hxi]
      · rw [if_neg hxi, if_neg hxi, ih]

theorem foldl_setById_append :
    ∀ (l acc : List Message), (((acc ++ l).map Message.id)).Nodup →
      l.foldl setById acc = acc ++ l
  | [], acc, _ => by simp
  | x :: xs, acc, hnd => by
    have hx : x.id ∉ acc.map Message.id := by
      intro hmem
      have := (List.nodup_append.mp (by simpa using hnd)).2.2
      exact this hmem (by simp)
    have hstep : setById acc x = acc ++ [x] := setById_of_not_mem hx
    have hrec := foldl_setById_append xs (acc ++ [x]) (by simpa using hnd)
    simp only [List.foldl_cons, hstep, hrec, List.append_assoc, List.singleton_append]

theorem buildMap_eq {l : List Message} (hnd : (l.map Message.id).Nodup) :
    buildMap l = l := by
  simpa using foldl_setById_append l [] (by simpa using hnd)

/-! ## Merge-fold lemmas -/

theorem nodup_insertStep {now : Int} {r : Bool} {l : List Message}
    {m : Incoming} (h : (l.map Message.id).Nodup) :
    (((insertStep now r l m).map Message.id)).Nodup := by
  cases hm : m.id with
  | none => simpa [insertStep, hm] using h
  | some j => simpa [insertStep, hm] using nodup_setById h

theorem nodup_foldl_insertStep (now : Int) (r : Bool) :
    ∀ (B : List Incoming) (l : List Message), (l.map Message.id).Nodup →
      ((B.foldl (insertStep now r) l).map Message.id).Nodup
  | [], _, h => h
  | _ :: B', _, h =>
    nodup_foldl_insertStep now r B' _ (nodup_insertStep h)

theorem foldl_insertStep_ts_preserved (now : Int) :
    ∀ (B : List Incoming) (l : List Message) (i : String) (e : Message),
      lookupId l i = some e →
      ∃ e', lookupId (B.foldl (insertStep now true) l) i = some e' ∧
        e'.timestamp = e.timestamp
  | [], _, _, e, h => ⟨e, h, rfl⟩
  | m :: B', l, i, e, h => by
    cases hm : m.id with
    | none =>
      simpa [insertStep, hm] using
        foldl_insertStep_ts_preserved now B' l i e h
    | some j =>
      by_cases hj : j = i
      · subst hj
        have hstep : insertStep now true l m =
            setById l (msgOfIncoming m j e.timestamp) := by
          simp [insertStep, resolveTs, hm, h]
        have hlook : lookupId (setById l (msgOfIncoming m j e.timestamp)) j =
            some (msgOfIncoming m j e.timestamp) :=
          lookupId_setById_self l _
        obtain ⟨e', he', hts⟩ :=
          foldl_insertStep_ts_preserved now B' _ j _ hlook
        exact ⟨e', by simpa [hstep] using he', hts⟩
      · have hstep : lookupId (insertStep now true l m) i = lookupId l i := by
          simp only [insertStep, hm]
          exact lookupId_setById_of_ne l _ (by
            simp only [msgOfIncoming]
            exact fun hh => hj hh.symm)
        obtain ⟨e', he', hts⟩ :=
          foldl_insertStep_ts_preserved now B' (insertStep now true l m) i e
            (hstep.trans h)
        exact ⟨e', by simpa using he', hts⟩

theorem foldl_insertStep_new_ts (now : Int) :
    ∀ (B : List Incoming) (l : List Message) (i : String),
      lookupId l i = none →
      lookupId (B.foldl (insertStep now true) l) i = none ∨
      ∃ e', lookupId (B.foldl (insertStep now true) l) i = some e' ∧
        e'.timestamp = now
  | [], _, _, h => Or.inl h
  | m :: B', l, i, h => by
    cases hm : m.id with
    | none =>
      simpa [insertStep, hm] using foldl_insertStep_new_ts now B' l i h
    | some j =>
      by_cases hj : j = i
      · subst hj
        have hstep : insertStep now true l m =
            setById l (msgOfIncoming m j now) := by
          simp [insertStep, resolveTs, hm, h]
        have hlook : lookupId (setById l (msgOfIncoming m j now)) j =
            some (msgOfIncoming m j now) := lookupId_setById_self l _
        obtain ⟨e', he', hts⟩ :=
          foldl_insertStep_ts_preserved now B' _ j _ hlook
        exact Or.inr ⟨e', by simpa [hstep] using he', hts⟩
      · have hstep : lookupId (insertStep now true l m) i = lookupId l i := by
          simp only [insertStep, hm]
          exact lookupId_setById_of_ne l _ (by
            simp only [msgOfIncoming]
            exact fun hh => hj hh.symm)
        rcases foldl_insertStep_new_ts now B' (insertStep now true l m) i
            (hstep.trans h) with hnone | ⟨e', he', hts⟩
        · exact Or.inl (by simpa using hnone)
        · exact Or.inr ⟨e', by simpa using he', hts⟩

/-- The last element of the batch that writes id `i`. -/
def lastWrite (i : String) : List Incoming → Option Incoming
  | [] => none
  | m :: B =>
    match lastWrite i B with
    | some m' => some m'
    | none => if m.id = some i then some m else none

theorem lastWrite_mem {i : String} :
    ∀ {B : List Incoming} {m : Incoming}, lastWrite i B = some m → m ∈ B := by
  intro B
  induction B with
  | nil => intro m h; cases h
  | cons m0 B' ih =>
    intro m h
    rw [lastWrite] at h
    cases hB : lastWrite i B' with
    | some m'' =>
      rw [hB] at h
      exact List.mem_cons_of_mem m0 (ih (hB.trans h))
    | none =>
      rw [hB] at h
      by_cases hm0 : m0.id = some i
      · rw [if_pos hm0] at h
        exact (Option.some_inj.mp h) ▸ List.mem_cons_self m0 B'
      · rw [if_neg hm0] at h
        cases h

theorem lastWrite_cons_of_tail_none {i : String} {m : Incoming}
    {B : List Incoming} (h : lastWrite i B = none) :
    lastWrite i (m :: B) = if m.id = some i then some m else none := by
  rw [lastWrite, h]

theorem lastWrite_cons_of_tail_some {i : String} {m m' : Incoming}
    {B : List Incoming} (h : lastWrite i B = some m') :
    lastWrite i (m :: B) = some m' := by
  rw [lastWrite, h]

theorem foldl_insertStep_lastWrite_none (now : Int) (r : Bool) :
    ∀ (B : List Incoming) (l : List Message) (i : String),
      lastWrite i B = none →
      lookupId (B.foldl (insertStep now r) l) i = lookupId l i
  | [], _, _, _ => rfl
  | m :: B', l, i, h => by
    have hB' : lastWrite i B' = none := by
      rw [lastWrite] at h
      cases hB : lastWrite i B' with
      | some m'' => rw [hB] at h; cases h
      | none => rfl
    have hm : m.id ≠ some i := by
      intro hm
      rw [lastWrite_cons_of_tail_none hB', if_pos hm] at h
      cases h
    have hrec := foldl_insertStep_lastWrite_none now r B'
      (insertStep now r l m) i hB'
    rw [List.foldl_cons, hrec]
    cases hmid : m.id with
    | none => simp [insertStep, hmid]
    | some j =>
      have hj : i ≠ j := by
        intro hij
        exact hm (by rw [hmid, hij])
      simp only [insertStep, hmid]
      exact lookupId_setById_of_ne l _ (by
        simp only [msgOfIncoming]
        exact hj)

theorem foldl_insertStep_lastWrite_some (now : Int) (r : Bool) :
    ∀ (B : List Incoming) (l : List Message) (i : String) (m : Incoming),
      lastWrite i B = some m →
      ∃ t, lookupId (B.foldl (insertStep now r) l) i =
          some (msgOfIncoming m i t) ∧
        (r = false → t = ensureDate now m.timestamp)
  | [], _, _, _, h => by cases h
  | m0 :: B', l, i, m, h => by
    cases hB : lastWrite i B' with
    | some m'' =>
      have heq : m'' = m := by
        rw [lastWrite_cons_of_tail_some hB] at h
        exact Option.some_inj.mp h
      exact heq ▸
        foldl_insertStep_lastWrite_some now r B' (insertStep now r l m0) i m'' hB
    | none =>
      rw [lastWrite_cons_of_tail_none hB] at h
      by_cases hm0 : m0.id = some i
      · rw [if_pos hm0] at h
        have hm : m0 = m := Option.some_inj.mp h
        subst hm
        have hstep : ∃ t, insertStep now r l m0 =
            setById l (msgOfIncoming m0 i t) ∧
            (r = false → t = ensureDate now m0.timestamp) := by
          cases r with
          | false =>
            refine ⟨ensureDate now m0.timestamp, ?_, fun _ => rfl⟩
            simp [insertStep, resolveTs, hm0]
          | true =>
            cases hl : lookupId l i with
            | none =>
              refine ⟨now, ?_, fun hr => by cases hr⟩
              simp [insertStep, resolveTs, hm0, hl]
            | some e =>
              refine ⟨e.timestamp, ?_, fun hr => by cases hr⟩
              simp [insertStep, resolveTs, hm0, hl]
        obtain ⟨t, hstep, ht⟩ := hstep
        refine ⟨t, ?_, ht⟩
        rw [List.foldl_cons, hstep,
          foldl_insertStep_lastWrite_none now r B' _ i hB]
        exact lookupId_setById_self l _
      · rw [if_neg hm0] at h
        cases h

/-! ## Ordering and retention lemmas -/

theorem orderedView_perm (l : List Message) : (orderedView l).Perm l :=
  List.perm_insertionSort keyLE l

theorem orderedView_sorted (l : List Message) :
    List.Sorted keyLE (orderedView l) :=
  List.sorted_insertionSort keyLE l

theorem orderedView_eq_of_sorted {l : List Message}
    (h : List.Sorted keyLE l) : orderedView l = l :=
  h.insertionSort_eq

theorem mem_sliceLast50 {l : List Message} {m : Message}
    (h : m ∈ sliceLast50 l) : m ∈ l :=
  List.drop_subset _ l h

theorem sliceLast50_length_le (l : List Message) :
    (sliceLast50 l).length ≤ 50 := by
  simp only [sliceLast50, List.length_drop]
  omega

theorem sliceLast50_eq_of_le {l : List Message} (h : l.length ≤ 50) :
    sliceLast50 l = l := by
  simp [sliceLast50, Nat.sub_eq_zero_of_le h]

theorem upsertMessages_cons (now : Int) (r : Bool) (m : Incoming)
    (t : List Incoming) (prev : List Message) :
    upsertMessages now r (m :: t) prev =
      sliceLast50 (orderedView (mergedMap now r (m :: t) prev)) :=
  rfl

theorem length_upsertMessages_le {now : Int} {r : Bool}
    {inc : List Incoming} {prev : List Message} (h : prev.length ≤ 50) :
    (upsertMessages now r inc prev).length ≤ 50 := by
  cases inc with
  | nil => simpa [upsertMessages] using h
  | cons m t => simpa [upsertMessages_cons] using sliceLast50_length_le _

theorem nodup_mergedMap (now : Int) (r : Bool) (inc : List Incoming)
    {prev : List Message} (h : (prev.map Message.id).Nodup) :
    ((mergedMap now r inc prev).map Message.id).Nodup := by
  rw [mergedMap, buildMap_eq h]
  exact nodup_foldl_insertStep now r inc prev h

theorem nodup_upsertMessages {now : Int} {r : Bool} {inc : List Incoming}
    {prev : List Message} (h : (prev.map Message.id).Nodup) :
    ((upsertMessages now r inc prev).map Message.id).Nodup := by
  cases inc with
  | nil => simpa [upsertMessages] using h
  | cons m t =>
    rw [upsertMessages_cons]
    have hM := nodup_mergedMap now r (m :: t) h
    have hview : ((orderedView (mergedMap now r (m :: t) prev)).map
        Message.id).Nodup :=
      (((orderedView_perm _).map Message.id).nodup_iff).mpr hM
    exact hview.sublist ((List.drop_sublist _ _).map Message.id)

theorem lookupId_upsert_to_merged {now : Int} {r : Bool}
    {inc : List Incoming} {prev : List Message} {i : String} {e' : Message}
    (h : (prev.map Message.id).Nodup) (hne : inc ≠ [])
    (he' : lookupId (upsertMessages now r inc prev) i = some e') :
    lookupId (mergedMap now r inc prev) i = some e' := by
  cases inc with
  | nil => exact absurd rfl hne
  | cons m t =>
    rw [upsertMessages_cons] at he'
    obtain ⟨hmem, hid⟩ := lookupId_mem he'
    have hmemM : e' ∈ mergedMap now r (m :: t) prev :=
      (orderedView_perm _).subset (mem_sliceLast50 hmem)
    have := mem_lookupId (nodup_mergedMap now r (m :: t) h) hmemM
    rw [hid] at this
    exact this

/-! ## The merge fold fixes its own result (towards idempotence) -/

theorem foldl_insertStep_fixpoint (now : Int) (r : Bool) (R : List Message)
    (hnd : (R.map Message.id).Nodup) :
    ∀ (B : List Incoming) (l : List Message),
      l.map Message.id = R.map Message.id →
      (r = true → ∀ i, (lookupId l i).map Message.timestamp =
        (lookupId R i).map Message.timestamp) →
      (∀ i, lastWrite i B = none → lookupId l i = lookupId R i) →
      (∀ i m, lastWrite i B = some m →
        ∃ tR, lookupId R i = some (msgOfIncoming m i tR) ∧
          (r = false → tR = ensureDate now m.timestamp)) →
      B.foldl (insertStep now r) l = R
  | [], l, hids, _, hrest, _ =>
    eq_of_ids_lookup_eq hids (hids ▸ hnd) (fun i => hrest i rfl)
  | m :: B', l, hids, hts, hrest, hamb => by
    rw [List.foldl_cons]
    cases hm : m.id with
    | none =>
      have hstep : insertStep now r l m = l := by simp [insertStep, hm]
      rw [hstep]
      refine foldl_insertStep_fixpoint now r R hnd B' l hids hts ?_ ?_
      · intro i h0
        refine hrest i ?_
        rw [lastWrite_cons_of_tail_none h0, if_neg (by simp [hm])]
      · intro i m'' h0
        exact hamb i m'' (lastWrite_cons_of_tail_some h0)
    | some j =>
      have hlastj : ∃ mj, lastWrite j (m :: B') = some mj := by
        cases hB : lastWrite j B' with
        | some m'' => exact ⟨m'', lastWrite_cons_of_tail_some hB⟩
        | none =>
          exact ⟨m, by rw [lastWrite_cons_of_tail_none hB, if_pos hm]⟩
      obtain ⟨mj, hmj⟩ := hlastj
      obtain ⟨tRj, hRj, hRjf⟩ := hamb j mj hmj
      have hjR : j ∈ R.map Message.id := by
        have hmm := lookupId_mem hRj
        have : (msgOfIncoming mj j tRj).id = j := rfl
        exact this ▸ List.mem_map_of_mem Message.id hmm.1
      have hjl : j ∈ l.map Message.id := hids ▸ hjR
      obtain ⟨ej, hej⟩ := lookupId_isSome_of_mem hjl
      have hstep : insertStep now r l m =
          setById l (msgOfIncoming m j (resolveTs now r l m j)) := by
        simp [insertStep, hm]
      rw [hstep]
      have hidsv : (msgOfIncoming m j (resolveTs now r l m j)).id ∈
          l.map Message.id := hjl
      have hids' : (setById l (msgOfIncoming m j (resolveTs now r l m j))).map
          Message.id = R.map Message.id :=
        (map_id_setById_of_mem hidsv).trans hids
      have hlookself : lookupId
          (setById l (msgOfIncoming m j (resolveTs now r l m j))) j =
          some (msgOfIncoming m j (resolveTs now r l m j)) :=
        lookupId_setById_self l _
      have hlookne : ∀ i, i ≠ j → lookupId
          (setById l (msgOfIncoming m j (resolveTs now r l m j))) i =
          lookupId l i := fun i hi =>
        lookupId_setById_of_ne l _ (by
          simp only [msgOfIncoming]
          exact hi)
      refine foldl_insertStep_fixpoint now r R hnd B' _ hids' ?_ ?_ ?_
      · -- timestamp agreement with R is preserved (restampNew = true)
        intro hr i
        subst hr
        by_cases hi : i = j
        · subst hi
          rw [hlookself, hRj]
          have h1 := hts rfl i
          rw [hej, hRj] at h1
          have hejts : ej.timestamp = tRj := by simpa using h1
          simp [resolveTs, hej, msgOfIncoming, hejts]
        · rw [hlookne i hi]
          exact hts rfl i
      · -- untouched ids still agree with R
        intro i h0
        by_cases hi : i = j
        · subst hi
          have hmjm : mj = m := by
            rw [lastWrite_cons_of_tail_none h0, if_pos hm] at hmj
            exact (Option.some_inj.mp hmj).symm
          subst hmjm
          rw [hlookself, hRj]
          have : resolveTs now r l mj i = tRj := by
            cases r with
            | false =>
              rw [hRjf rfl]
              simp [resolveTs]
            | true =>
              have h1 := hts rfl i
              rw [hej, hRj] at h1
              have hejts : ej.timestamp = tRj := by simpa using h1
              simp [resolveTs, hej, hejts]
          rw [this]
        · rw [hlookne i hi]
          refine hrest i ?_
          rw [lastWrite_cons_of_tail_none h0,
            if_neg (by rw [hm]; exact fun hh => hi (Option.some_inj.mp hh).symm)]
      · intro i m'' h0
        exact hamb i m'' (lastWrite_cons_of_tail_some h0)

/-! ## Reconciliation and fetch helper lemmas -/

theorem lookupId_filter {l : List Message} {i : String} {u : Message}
    (hnd : (l.map Message.id).Nodup) (h : lookupId l i = some u)
    {p : Message → Bool} (hp : p u = true) :
    lookupId (l.filter p) i = some u := by
  obtain ⟨hmem, hid⟩ := lookupId_mem h
  have hmf : u ∈ l.filter p := List.mem_filter.mpr ⟨hmem, hp⟩
  have hndf : ((l.filter p).map Message.id).Nodup :=
    hnd.sublist ((List.filter_sublist l).map Message.id)
  have := mem_lookupId hndf hmf
  rw [hid] at this
  exact this

theorem reconcileAck_ids_subset {mid : Option String} {userId : String} :
    ∀ (l : List Message) {j : String},
      j ∈ (reconcileAck mid userId l).map Message.id →
      j ∈ l.map Message.id ∨ j = resolveId mid userId
  | [], _, h => by simp [reconcileAck] at h
  | x :: xs, j, h => by
    by_cases hx : x.isThinking
    · have hxs : j ∈ (reconcileAck mid userId xs).map Message.id := by
        simpa [reconcileAck, hx] using h
      rcases reconcileAck_ids_subset xs hxs with hin | heq
      · exact Or.inl (by simp [hin])
      · exact Or.inr heq
    · have hsplit : j = (if x.id = userId then resolveId mid x.id else x.id) ∨
          j ∈ (reconcileAck mid userId xs).map Message.id := by
        rcases by simpa [reconcileAck, hx] using h with h1 | h2
        · left
          by_cases hxid : x.id = userId <;> simpa [hxid] using h1
        · right
          simpa [reconcileAck] using h2
      rcases hsplit with h1 | h2
      · by_cases hxid : x.id = userId
        · exact Or.inr (by rw [h1, if_pos hxid, hxid])
        · exact Or.inl (by simp [h1, hxid])
      · rcases reconcileAck_ids_subset xs h2 with hin | heq
        · exact Or.inl (by simp [hin])
        · exact Or.inr heq

theorem reconcileAck_of_not_mem {mid : Option String} {userId : String} :
    ∀ {l : List Message}, userId ∉ l.map Message.id →
      reconcileAck mid userId l = l.filter (fun m => !m.isThinking)
  | [], _ => rfl
  | x :: xs, hl => by
    have hxid : x.id ≠ userId := fun he => hl (by simp [he.symm])
    have hxs : userId ∉ xs.map Message.id := fun hm => hl (by simp [hm])
    have hrec := @reconcileAck_of_not_mem mid userId xs hxs
    simp only [reconcileAck, List.filter_cons] at hrec ⊢
    by_cases hx : x.isThinking
    · simp [hx, hrec]
    · simp [hx, hrec, if_neg hxid]

/-- A normalized poll item always carries a timestamp. -/
theorem buildAgentMessage_timestamp {now : Int} {item : RawItem}
    {m : Incoming} (h : buildAgentMessage now item = some m) :
    m.timestamp = some (ensureDate now item.timestamp) := by
  cases hid : item.id with
  | none => simp [buildAgentMessage, hid] at h
  | some i =>
    simp only [buildAgentMessage, hid] at h
    by_cases hi : i = ""
    · simp [hi] at h
    · rw [if_neg hi] at h
      rw [← Option.some_inj.mp h]

theorem reconcileAck_cons_keep {mid : Option String} {userId : String}
    {x : Message} {xs : List Message} (hx : x.isThinking = false) :
    reconcileAck mid userId (x :: xs) =
      (if x.id = userId then { x with id := resolveId mid x.id } else x) ::
        reconcileAck mid userId xs := by
  simp [reconcileAck, List.filter_cons, hx]

theorem reconcileAck_cons_drop {mid : Option String} {userId : String}
    {x : Message} {xs : List Message} (hx : x.isThinking = true) :
    reconcileAck mid userId (x :: xs) = reconcileAck mid userId xs := by
  simp [reconcileAck, List.filter_cons, hx]

/-- A successful poll's result depends on the previous state only through
its `store` and `cursor` fields, and always clears the error banner. -/
theorem fetch_ok_congr (now2 : Int) (ini2 : Bool) (msgs : List RawItem)
    (s s' : FetchState) (hs : s'.store = s.store) (hc : s'.cursor = s.cursor) :
    (fetchAgentResponses now2 ini2 false (FetchResponse.ok msgs)
      s').historyError = none ∧
    (fetchAgentResponses now2 ini2 false (FetchResponse.ok msgs) s').store =
      (fetchAgentResponses now2 ini2 false (FetchResponse.ok msgs) s).store ∧
    (fetchAgentResponses now2 ini2 false (FetchResponse.ok msgs) s').cursor =
      (fetchAgentResponses now2 ini2 false (FetchResponse.ok msgs) s).cursor := by
  by_cases hn : (msgs.filterMap (buildAgentMessage now2)).isEmpty
  · simp [fetchAgentResponses, hn, hs, hc]
  · cases hh : (msgs.filterMap (buildAgentMessage now2)).head? with
    | none => simp [fetchAgentResponses, hn, hh, hs, hc]
    | some m =>
      cases hts : m.timestamp with
      | none => simp [fetchAgentResponses, hn, hh, hts, hs, hc]
      | some t => simp [fetchAgentResponses, hn, hh, hts, hs, hc]

/-! ## Claim C1 — ordering-key immutability -/

/-- Claim C1, counterexample. -- The claim asserts orderingKey immutability in
*both* `restampNew` modes. With `restampNew = false`, merging an incoming
record for the already-stored id `"a"` (stored timestamp 10, incoming
timestamp 99) overwrites the stored orderingKey with 99. -/
theorem C1_restampFalse_overwrites :
    lookupId (upsertMessages 50 false [mkInc "a" (some 99)] [mkMsg "a" 10]) "a" =
      some (mkMsg "a" 99) ∧
    (mkMsg "a" 99).timestamp ≠ (mkMsg "a" 10).timestamp := by
  decide

/-- Claim C1, amended. -- In `restampNew = true` mode (the background-poll
mode), for every id present in the store both before and after the merge,
the stored orderingKey (timestamp) is unchanged, even when the incoming
record carries a different timestamp. In `restampNew = false` mode the
incoming record's timestamp replaces the stored one. -/
theorem C1_orderingKey_immutable_restampNew (now : Int) (B : List Incoming)
    (prev : List Message) (hnd : (prev.map Message.id).Nodup) (i : String)
    (e e' : Message) (he : lookupId prev i = some e)
    (he' : lookupId (upsertMessages now true B prev) i = some e') :
    e'.timestamp = e.timestamp := by
  cases B with
  | nil =>
    have h0 : upsertMessages now true [] prev = prev := by simp [upsertMessages]
    rw [h0, he] at he'
    rw [← Option.some_inj.mp he']
  | cons m t =>
    have hM := lookupId_upsert_to_merged hnd (by simp) he'
    rw [mergedMap, buildMap_eq hnd] at hM
    obtain ⟨e'', he'', hts⟩ :=
      foldl_insertStep_ts_preserved now (m :: t) prev i e he
    rw [hM] at he''
    rw [Option.some_inj.mp he'']
    exact hts

/-- Claim C1, witness. -- -/
theorem C1_witness :
    (([mkMsg "a" 10].map Message.id).Nodup ∧
      lookupId [mkMsg "a" 10] "a" = some (mkMsg "a" 10) ∧
      lookupId (upsertMessages 50 true [mkInc "a" (some 99)] [mkMsg "a" 10])
        "a" = some (mkMsg "a" 10)) ∧
    (mkMsg "a" 10).timestamp = (mkMsg "a" 10).timestamp :=
  ⟨⟨by decide, by decide, by decide⟩,
    C1_orderingKey_immutable_restampNew 50 [mkInc "a" (some 99)]
      [mkMsg "a" 10] (by decide) "a" (mkMsg "a" 10) (mkMsg "a" 10)
      (by decide) (by decide)⟩

/-! ## Claim C2 — ordering policy -/

/-- Claim C2, counterexample. -- The view the code produces is not the
claimed causal/orderingKey/id sort: on the store `[cA, cB]` (both without
task ids, timestamps 10 and 5) the code keeps insertion order `[cA, cB]`
while the claimed comparator orders `[cB, cA]` by orderingKey; moreover,
the same id-set in a different map iteration order yields a different
view, so the result is not independent of map iteration order. -/
theorem C2_orderingPolicy_mismatch :
    orderedView [cA, cB] ≠ specOrderedView [cA, cB] ∧
    orderedView [cA, cB] ≠ orderedView [cB, cA] := by
  decide

/-- Claim C2, amended. -- The ordered view is the stable sort of the map's
values by the single key `parseInt(taskId) || 0`: it is a permutation of
the store sorted by `taskKey`, with equal-key events kept in map
insertion order (stability of the sort); there is no orderingKey fallback
and no id tie-break, so determinism holds only relative to a fixed map
insertion order. -/
theorem C2_orderedView_sorted_by_taskKey :
    (∀ l : List Message, (orderedView l).Perm l) ∧
    (∀ l : List Message, List.Sorted keyLE (orderedView l)) :=
  ⟨orderedView_perm, orderedView_sorted⟩

/-! ## Claim C5 — bounded retention -/

/-- Claim C5. -- For any sequence of merges starting from the empty store —
each step an `upsertMessages` call with arbitrary clock, mode and batch —
the store holds at most 50 events immediately after each merge. -/
theorem C5_bounded_retention (steps : List (Int × Bool × List Incoming)) :
    (steps.foldl (fun st p => upsertMessages p.1 p.2.1 p.2.2 st) []).length ≤
      50 := by
  have main : ∀ (ss : List (Int × Bool × List Incoming)) (st : List Message),
      st.length ≤ 50 →
      (ss.foldl (fun st p => upsertMessages p.1 p.2.1 p.2.2 st) st).length ≤
        50 := by
    intro ss
    induction ss with
    | nil => intro st h; exact h
    | cons p ps ih =>
      intro st h
      exact ih _ (length_upsertMessages_le h)
  exact main steps [] (by simp)

/-! ## Claim C6 — restampNew assignment for new ids -/

/-- Claim C6, counterexample. -- The claim says a new id carrying an
authoritative timestamp keeps it under `restampNew = true`. The code
stamps every new id with the client clock: a new event carrying
timestamp 12, merged at local time 99, is stored with orderingKey 99. -/
theorem C6_carried_timestamp_ignored :
    lookupId (upsertMessages 99 true [mkInc "a" (some 12)] []) "a" =
      some (mkMsg "a" 99) ∧
    (mkMsg "a" 99).timestamp ≠ 12 := by
  decide

/-- Claim C6, amended. -- In `restampNew = true` mode, every id that is new to
the store is stamped with the client's current local time, whether or not
the incoming event carries its own timestamp; carried timestamps are used
only in `restampNew = false` mode. -/
theorem C6_restampNew_stamps_now (now : Int) (B : List Incoming)
    (prev : List Message) (hnd : (prev.map Message.id).Nodup) (i : String)
    (e' : Message) (hnew : lookupId prev i = none)
    (he' : lookupId (upsertMessages now true B prev) i = some e') :
    e'.timestamp = now := by
  cases B with
  | nil =>
    have h0 : upsertMessages now true [] prev = prev := by simp [upsertMessages]
    rw [h0, hnew] at he'
    cases he'
  | cons m t =>
    have hM := lookupId_upsert_to_merged hnd (by simp) he'
    rw [mergedMap, buildMap_eq hnd] at hM
    rcases foldl_insertStep_new_ts now (m :: t) prev i hnew with
      h0 | ⟨e'', he'', hts⟩
    · rw [hM] at h0; cases h0
    · rw [hM] at he''
      rw [Option.some_inj.mp he'']
      exact hts

/-- Claim C6, witness. -- -/
theorem C6_witness :
    ((([] : List Message).map Message.id).Nodup ∧
      lookupId [] "a" = none ∧
      lookupId (upsertMessages 99 true [mkInc "a" (some 12)] []) "a" =
        some (mkMsg "a" 99)) ∧
    (mkMsg "a" 99).timestamp = 99 :=
  ⟨⟨by decide, by decide, by decide⟩,
    C6_restampNew_stamps_now 99 [mkInc "a" (some 12)] [] (by decide) "a"
      (mkMsg "a" 99) (by decide) (by decide)⟩

/-! ## Claim C10 — events without a parseable task id sort first -/

/-- Claim C10. -- An event whose `taskId` is absent or not parseable as an
integer has sort key 0 — in particular the user, thinking and error
events synthesized by `handleSubmit` carry no task id — the ordered view
never places a positive-key event before a key-0 event, and whenever the
sorted store exceeds the 50-event cap, every evicted event's key is at
most every retained event's key, so key-0 events are evicted first. -/
theorem C10_untasked_events_sort_first :
    (∀ m : Message, m.taskId = none → taskKey m = 0) ∧
    (∀ (m : Message) (st : String), m.taskId = some st →
      parseIntJS st = none → taskKey m = 0) ∧
    (∀ (now : Int) (txt : String), (userMessage now txt).taskId = none ∧
      (thinkingMessage now).taskId = none ∧
      (errorMessage now txt).taskId = none) ∧
    (∀ l : List Message,
      (orderedView l).Pairwise (fun a b => 0 < taskKey a → 0 < taskKey b)) ∧
    (∀ (l : List Message) (a b : Message),
      a ∈ (orderedView l).take ((orderedView l).length - 50) →
      b ∈ sliceLast50 (orderedView l) → taskKey a ≤ taskKey b) := by
  refine ⟨?_, ?_, ?_, ?_, ?_⟩
  · intro m h
    simp [taskKey, h]
  · intro m st h hp
    simp [taskKey, h, hp]
  · intro now txt
    exact ⟨rfl, rfl, rfl⟩
  · intro l
    exact (orderedView_sorted l).imp (fun hab h0 => lt_of_lt_of_le h0 hab)
  · intro l a b ha hb
    have hsorted := orderedView_sorted l
    rw [← List.take_append_drop ((orderedView l).length - 50)
      (orderedView l)] at hsorted
    have hmain := (List.pairwise_append.mp hsorted).2.2
    simp only [sliceLast50] at hb
    exact hmain a ha b hb

/-- Claim C10, witness. -- -/
theorem C10_witness :
    taskKey (mkMsg "w" 5) = 0 ∧
    taskKey ⟨"x", "agent", "", 0, some "abc", false, false⟩ = 0 ∧
    (userMessage 7 "hi").taskId = none ∧
    taskKey s51a ≤ taskKey s51b :=
  ⟨C10_untasked_events_sort_first.1 (mkMsg "w" 5) (by decide),
    C10_untasked_events_sort_first.2.1
      ⟨"x", "agent", "", 0, some "abc", false, false⟩ "abc" (by decide)
      (by decide),
    (C10_untasked_events_sort_first.2.2.1 7 "hi").1,
    C10_untasked_events_sort_first.2.2.2.2 store51 s51a s51b (by decide)
      (by decide)⟩

/-! ## Claim C3 — idempotence of upsert -/

/-- Claim C3, counterexample. -- A batch of 51 events sharing sort key 0
evicts one event on the first upsert; re-upserting the identical batch
re-appends the evicted id at the end of the map, and the stable sort then
retains a different 50-element window, so `upsert(B); upsert(B)` differs
from `upsert(B)`. -/
theorem C3_double_upsert_differs :
    upsertMessages 0 false batch51 (upsertMessages 0 false batch51 []) ≠
      upsertMessages 0 false batch51 [] := by
  decide

/-- Claim C3, amended. -- `upsert(B); upsert(B)` equals `upsert(B)` provided
the merged map stays within the 50-event retention cap (no eviction) and,
when `restampNew = false`, every batch event carries a timestamp (so the
client clock at the second call cannot be stamped in). -/
theorem C3_upsert_idempotent (now1 now2 : Int) (r : Bool)
    (B : List Incoming) (prev : List Message)
    (hnd : (prev.map Message.id).Nodup)
    (hcap : (mergedMap now1 r B prev).length ≤ 50)
    (hts : r = true ∨ ∀ m ∈ B, m.timestamp ≠ none) :
    upsertMessages now2 r B (upsertMessages now1 r B prev) =
      upsertMessages now1 r B prev := by
  cases B with
  | nil => simp [upsertMessages]
  | cons m0 t0 =>
    have hndM : ((mergedMap now1 r (m0 :: t0) prev).map Message.id).Nodup :=
      nodup_mergedMap now1 r (m0 :: t0) hnd
    have hlenview :
        (orderedView (mergedMap now1 r (m0 :: t0) prev)).length ≤ 50 := by
      rw [orderedView, List.length_insertionSort]
      exact hcap
    have hR : upsertMessages now1 r (m0 :: t0) prev =
        orderedView (mergedMap now1 r (m0 :: t0) prev) := by
      rw [upsertMessages_cons, sliceLast50_eq_of_le hlenview]
    have hperm : (orderedView (mergedMap now1 r (m0 :: t0) prev)).Perm
        (mergedMap now1 r (m0 :: t0) prev) := orderedView_perm _
    have hndR : ((orderedView (mergedMap now1 r (m0 :: t0) prev)).map
        Message.id).Nodup := ((hperm.map Message.id).nodup_iff).mpr hndM
    have hlookR : ∀ i,
        lookupId (orderedView (mergedMap now1 r (m0 :: t0) prev)) i =
          lookupId (mergedMap now1 r (m0 :: t0) prev) i :=
      fun i => lookupId_perm hperm hndR i
    rw [hR, upsertMessages_cons]
    have hfold : mergedMap now2 r (m0 :: t0)
        (orderedView (mergedMap now1 r (m0 :: t0) prev)) =
        orderedView (mergedMap now1 r (m0 :: t0) prev) := by
      rw [mergedMap, buildMap_eq hndR]
      refine foldl_insertStep_fixpoint now2 r _ hndR (m0 :: t0) _ rfl
        (fun _ i => rfl) (fun i _ => rfl) ?_
      intro i mi h0
      obtain ⟨t1, hMt, ht1f⟩ := foldl_insertStep_lastWrite_some now1 r
        (m0 :: t0) (buildMap prev) i mi h0
      refine ⟨t1, ?_, ?_⟩
      · rw [hlookR i]
        exact hMt
      · intro hr
        rcases hts with hrt | htsf
        · rw [hrt] at hr; cases hr
        · obtain ⟨tv, htv⟩ :=
            Option.ne_none_iff_exists'.mp (htsf mi (lastWrite_mem h0))
          rw [ht1f hr, htv]
          rfl
    rw [hfold, orderedView_eq_of_sorted (orderedView_sorted _)]
    exact sliceLast50_eq_of_le hlenview

/-- Claim C3, witness. -- -/
theorem C3_witness :
    ((([] : List Message).map Message.id).Nodup ∧
      (mergedMap 5 true [mkInc "a" (some 1)] []).length ≤ 50) ∧
    upsertMessages 6 true [mkInc "a" (some 1)]
        (upsertMessages 5 true [mkInc "a" (some 1)] []) =
      upsertMessages 5 true [mkInc "a" (some 1)] [] :=
  ⟨⟨by decide, by decide⟩,
    C3_upsert_idempotent 5 6 true [mkInc "a" (some 1)] [] (by decide)
      (by decide) (Or.inl rfl)⟩

/-! ## Claim C4 — optimistic reconciliation -/

/-- Claim C4, counterexample. -- When a background poll has already inserted
the canonical id `m-500` before the submission response resolves, the
ack handler renames the optimistic `temp-99` to `m-500` by a plain `map`,
leaving two store entries with id `m-500` — the at-most-one-event-per-id
invariant the claim asserts is violated. -/
theorem C4_duplicate_after_poll_race :
    (reconcileAck (some "m-500") "temp-99" [tempMsg, pollMsg]).countP
        (fun m => m.id == "m-500") = 2 ∧
    ¬ ((reconcileAck (some "m-500") "temp-99" [tempMsg, pollMsg]).countP
        (fun m => m.id == "m-500") ≤ 1) := by
  decide

/-- Claim C4, amended. -- When the canonical id is *not* already in the store,
acknowledgement reconciliation behaves as claimed: the temporary local id
is gone, the canonical id is present with the optimistic event's original
orderingKey, and id-uniqueness is preserved. (In the poll race the rename
instead produces two entries with the canonical id, which only collapse
at the next upsert.) -/
theorem C4_reconcile_without_race (mid userId : String) (hmid : mid ≠ "") :
    ∀ (prev : List Message) (u : Message),
      (prev.map Message.id).Nodup →
      mid ∉ prev.map Message.id →
      mid ≠ userId →
      lookupId prev userId = some u →
      u.isThinking = false →
      lookupId (reconcileAck (some mid) userId prev) mid =
        some { u with id := mid } ∧
      userId ∉ (reconcileAck (some mid) userId prev).map Message.id ∧
      ((reconcileAck (some mid) userId prev).map Message.id).Nodup
  | [], u, _, _, _, hu, _ => by simp [lookupId] at hu
  | x :: xs, u, hnd, hfresh, hne, hu, hut => by
    have hnd' : (x.id :: xs.map Message.id).Nodup := by
      rw [List.map_cons] at hnd
      exact hnd
    have hndc := List.nodup_cons.mp hnd'
    have hfr' : mid ∉ xs.map Message.id := fun h => hfresh (by simp [h])
    cases hx : x.isThinking with
    | true =>
      have hxu : x.id ≠ userId := by
        intro hxe
        rw [lookupId_cons, if_pos hxe] at hu
        have hxeq : x = u := Option.some_inj.mp hu
        rw [hxeq, hut] at hx
        cases hx
      have hu' : lookupId xs userId = some u := by
        rw [lookupId_cons, if_neg hxu] at hu
        exact hu
      have hrec := C4_reconcile_without_race mid userId hmid xs u hndc.2
        hfr' hne hu' hut
      rw [reconcileAck_cons_drop hx]
      exact hrec
    | false =>
      by_cases hxu : x.id = userId
      · have hxeq : x = u := by
          rw [lookupId_cons, if_pos hxu] at hu
          exact Option.some_inj.mp hu
        have huxs : userId ∉ xs.map Message.id := by
          have h1 := hndc.1
          rw [hxu] at h1
          exact h1
        have hrest : reconcileAck (some mid) userId xs =
            xs.filter (fun m => !m.isThinking) :=
          reconcileAck_of_not_mem huxs
        have hres : resolveId (some mid) x.id = mid := by
          simp [resolveId, hmid]
        rw [reconcileAck_cons_keep hx, if_pos hxu, hres, hrest]
        have hsubf : (xs.filter (fun m => !m.isThinking)).map Message.id ⊆
            xs.map Message.id :=
          ((List.filter_sublist xs).map Message.id).subset
        refine ⟨?_, ?_, ?_⟩
        · rw [lookupId_cons]
          simp [hxeq]
        · simp only [List.map_cons, List.mem_cons]
          rintro (h | h)
          · exact hne h.symm
          · exact huxs (hsubf h)
        · simp only [List.map_cons]
          refine List.nodup_cons.mpr ⟨?_, hndc.2.sublist
            ((List.filter_sublist xs).map Message.id)⟩
          intro hmem
          exact hfr' (hsubf hmem)
      · have hu' : lookupId xs userId = some u := by
          rw [lookupId_cons, if_neg hxu] at hu
          exact hu
        have hrec := C4_reconcile_without_race mid userId hmid xs u hndc.2
          hfr' hne hu' hut
        have hxmid : x.id ≠ mid := fun h => hfresh (by simp [h.symm])
        rw [reconcileAck_cons_keep hx, if_neg hxu]
        refine ⟨?_, ?_, ?_⟩
        · rw [lookupId_cons, if_neg hxmid]
          exact hrec.1
        · simp only [List.map_cons, List.mem_cons]
          rintro (h | h)
          · exact hxu h.symm
          · exact hrec.2.1 h
        · simp only [List.map_cons]
          refine List.nodup_cons.mpr ⟨?_, hrec.2.2⟩
          intro hmem
          rcases reconcileAck_ids_subset xs hmem with hin | heq
          · exact hndc.1 hin
          · rw [heq] at hxmid
            have : resolveId (some mid) userId = mid := by
              simp [resolveId, hmid]
            exact hxmid (by rw [this])

/-- Claim C4, witness. -- -/
theorem C4_witness :
    (("m-500" : String) ≠ "" ∧ ([tempMsg].map Message.id).Nodup ∧
      "m-500" ∉ [tempMsg].map Message.id ∧
      ("m-500" : String) ≠ "temp-99" ∧
      lookupId [tempMsg] "temp-99" = some tempMsg ∧
      tempMsg.isThinking = false) ∧
    (lookupId (reconcileAck (some "m-500") "temp-99" [tempMsg]) "m-500" =
        some { tempMsg with id := "m-500" } ∧
      "temp-99" ∉
        (reconcileAck (some "m-500") "temp-99" [tempMsg]).map Message.id ∧
      ((reconcileAck (some "m-500") "temp-99" [tempMsg]).map
        Message.id).Nodup) :=
  ⟨⟨by decide, by decide, by decide, by decide, by decide, by decide⟩,
    C4_reconcile_without_race "m-500" "temp-99" (by decide) [tempMsg] tempMsg
      (by decide) (by decide) (by decide) (by decide) (by decide)⟩

/-! ## Claim C7 — failed polls leave the state untouched -/

/-- Claim C7. -- For every failing poll — network error, non-JSON
content-type, or non-success HTTP status — the store and the cursor are
exactly as before, a transient error indicator is set, and any subsequent
successful poll clears the indicator and produces the same store and
cursor it would have produced had the failure never happened (so the
retried range inserts no duplicates). -/
theorem C7_fetch_failure_isolated (now : Int) (ini : Bool)
    (resp : FetchResponse) (s : FetchState)
    (hfail : resp.isFailure = true) :
    (fetchAgentResponses now ini false resp s).store = s.store ∧
    (fetchAgentResponses now ini false resp s).cursor = s.cursor ∧
    (fetchAgentResponses now ini false resp s).historyError.isSome = true ∧
    ∀ (now2 : Int) (ini2 : Bool) (msgs : List RawItem),
      (fetchAgentResponses now2 ini2 false (FetchResponse.ok msgs)
        (fetchAgentResponses now ini false resp s)).historyError = none ∧
      (fetchAgentResponses now2 ini2 false (FetchResponse.ok msgs)
        (fetchAgentResponses now ini false resp s)).store =
        (fetchAgentResponses now2 ini2 false (FetchResponse.ok msgs)
          s).store ∧
      (fetchAgentResponses now2 ini2 false (FetchResponse.ok msgs)
        (fetchAgentResponses now ini false resp s)).cursor =
        (fetchAgentResponses now2 ini2 false (FetchResponse.ok msgs)
          s).cursor := by
  cases resp with
  | ok msgs => simp [FetchResponse.isFailure] at hfail
  | networkError msg =>
    exact ⟨rfl, rfl, rfl, fun now2 ini2 msgs =>
      fetch_ok_congr now2 ini2 msgs s _ rfl rfl⟩
  | nonJson =>
    exact ⟨rfl, rfl, rfl, fun now2 ini2 msgs =>
      fetch_ok_congr now2 ini2 msgs s _ rfl rfl⟩
  | httpError detail =>
    exact ⟨rfl, rfl, rfl, fun now2 ini2 msgs =>
      fetch_ok_congr now2 ini2 msgs s _ rfl rfl⟩

/-- Claim C7, witness. -- -/
theorem C7_witness :
    (FetchResponse.networkError "boom").isFailure = true ∧
    ((fetchAgentResponses 3 false false (FetchResponse.networkError "boom")
        s0).store = s0.store ∧
      (fetchAgentResponses 3 false false (FetchResponse.networkError "boom")
        s0).cursor = s0.cursor ∧
      (fetchAgentResponses 3 false false (FetchResponse.networkError "boom")
        s0).historyError.isSome = true ∧
      ∀ (now2 : Int) (ini2 : Bool) (msgs : List RawItem),
        (fetchAgentResponses now2 ini2 false (FetchResponse.ok msgs)
          (fetchAgentResponses 3 false false
            (FetchResponse.networkError "boom") s0)).historyError = none ∧
        (fetchAgentResponses now2 ini2 false (FetchResponse.ok msgs)
          (fetchAgentResponses 3 false false
            (FetchResponse.networkError "boom") s0)).store =
          (fetchAgentResponses now2 ini2 false (FetchResponse.ok msgs)
            s0).store ∧
        (fetchAgentResponses now2 ini2 false (FetchResponse.ok msgs)
          (fetchAgentResponses 3 false false
            (FetchResponse.networkError "boom") s0)).cursor =
          (fetchAgentResponses now2 ini2 false (FetchResponse.ok msgs)
            s0).cursor) :=
  ⟨rfl, C7_fetch_failure_isolated 3 false (FetchResponse.networkError "boom")
    s0 rfl⟩

/-! ## Claim C8 — the failure handler of handleSubmit -/

/-- Claim C8, counterexample. -- The claim says the temporary optimistic user
event is removed on submission failure. Running the failure handler on a
store holding the optimistic `user-1` event and a thinking placeholder
leaves `user-1` in the store untouched. -/
theorem C8_user_event_not_removed :
    lookupId (handleSubmitFailure 102 "boom" inFlightStore) "user-1" =
      some ⟨"user-1", "user", "task", 100, none, false, false⟩ := by
  decide

/-- Claim C8, amended. -- On submission failure the handler removes every
pending thinking placeholder and inserts a fresh system `isError` event
with its own fresh orderingKey (the current time), but the temporary
optimistic user event is *not* removed: any non-thinking event, the
optimistic user message included, survives unchanged. -/
theorem C8_failure_removes_placeholder_only (now : Int)
    (failureText : String) (prev : List Message) (i : String) (u : Message)
    (hnd : (prev.map Message.id).Nodup)
    (hfresh : ("error-" ++ toString now) ∉ prev.map Message.id)
    (hcap : (prev.filter (fun m => !m.isThinking)).length + 1 ≤ 50)
    (hu : lookupId prev i = some u)
    (hut : u.isThinking = false)
    (hne : i ≠ "error-" ++ toString now) :
    (∀ m ∈ handleSubmitFailure now failureText prev, m.isThinking = false) ∧
    lookupId (handleSubmitFailure now failureText prev)
        ("error-" ++ toString now) =
      some ⟨"error-" ++ toString now, "system", "Error: " ++ failureText,
        now, none, false, true⟩ ∧
    lookupId (handleSubmitFailure now failureText prev) i = some u := by
  have hndf : ((prev.filter (fun m => !m.isThinking)).map Message.id).Nodup :=
    hnd.sublist ((List.filter_sublist prev).map Message.id)
  have hfrf : ("error-" ++ toString now) ∉
      (prev.filter (fun m => !m.isThinking)).map Message.id := fun h =>
    hfresh (((List.filter_sublist prev).map Message.id).subset h)
  have hset : mergedMap now false [errorMessage now failureText]
      (prev.filter (fun m => !m.isThinking)) =
      setById (prev.filter (fun m => !m.isThinking))
        ⟨"error-" ++ toString now, "system", "Error: " ++ failureText, now,
          none, false, true⟩ := by
    rw [mergedMap, buildMap_eq hndf]
    rfl
  have happ := hset.trans (setById_of_not_mem hfrf)
  have hlen : (mergedMap now false [errorMessage now failureText]
      (prev.filter (fun m => !m.isThinking))).length ≤ 50 := by
    rw [happ]
    simpa using hcap
  have hndM : ((mergedMap now false [errorMessage now failureText]
      (prev.filter (fun m => !m.isThinking))).map Message.id).Nodup :=
    nodup_mergedMap now false _ hndf
  have hlenview : (orderedView (mergedMap now false
      [errorMessage now failureText]
      (prev.filter (fun m => !m.isThinking)))).length ≤ 50 := by
    rw [orderedView, List.length_insertionSort]
    exact hlen
  have hres : handleSubmitFailure now failureText prev =
      orderedView (mergedMap now false [errorMessage now failureText]
        (prev.filter (fun m => !m.isThinking))) := by
    rw [handleSubmitFailure, upsertMessages_cons,
      sliceLast50_eq_of_le hlenview]
  have hperm := orderedView_perm (mergedMap now false
    [errorMessage now failureText] (prev.filter (fun m => !m.isThinking)))
  have hndV := ((hperm.map Message.id).nodup_iff).mpr hndM
  have hlook : ∀ j, lookupId (orderedView (mergedMap now false
      [errorMessage now failureText]
      (prev.filter (fun m => !m.isThinking)))) j =
      lookupId (mergedMap now false [errorMessage now failureText]
        (prev.filter (fun m => !m.isThinking))) j :=
    fun j => lookupId_perm hperm hndV j
  refine ⟨?_, ?_, ?_⟩
  · intro m hm
    rw [hres] at hm
    have hmM := hperm.subset hm
    rw [happ] at hmM
    rcases List.mem_append.mp hmM with hf | he
    · simpa using (List.mem_filter.mp hf).2
    · have : m = ⟨"error-" ++ toString now, "system",
          "Error: " ++ failureText, now, none, false, true⟩ := by
        simpa using he
      rw [this]
  · rw [hres, hlook, hset]
    exact lookupId_setById_self _ _
  · rw [hres, hlook, hset, lookupId_setById_of_ne _ _ hne]
    exact lookupId_filter hnd hu (by simp [hut])

/-- Claim C8, witness. -- -/
theorem C8_witness :
    ((inFlightStore.map Message.id).Nodup ∧
      ("error-" ++ toString (102 : Int)) ∉ inFlightStore.map Message.id ∧
      (inFlightStore.filter (fun m => !m.isThinking)).length + 1 ≤ 50 ∧
      lookupId inFlightStore "user-1" =
        some ⟨"user-1", "user", "task", 100, none, false, false⟩ ∧
      ("user-1" : String) ≠ "error-" ++ toString (102 : Int)) ∧
    ((∀ m ∈ handleSubmitFailure 102 "boom" inFlightStore,
        m.isThinking = false) ∧
      lookupId (handleSubmitFailure 102 "boom" inFlightStore)
          ("error-" ++ toString (102 : Int)) =
        some ⟨"error-" ++ toString (102 : Int), "system",
          "Error: " ++ "boom", 102, none, false, true⟩ ∧
      lookupId (handleSubmitFailure 102 "boom" inFlightStore) "user-1" =
        some ⟨"user-1", "user", "task", 100, none, false, false⟩) :=
  ⟨⟨by decide, by decide, by decide, by decide, by decide⟩,
    C8_failure_removes_placeholder_only 102 "boom" inFlightStore "user-1"
      ⟨"user-1", "user", "task", 100, none, false, false⟩ (by decide)
      (by decide) (by decide) (by decide) (by decide) (by decide)⟩

/-! ## Claim C9 — the polling cursor -/

/-- Claim C9, counterexample. -- After a successful poll delivering normalized
events with timestamps 5 and 9 (in that order), the client has observed
orderingKey 9 — it is stored — yet the cursor is set to 5, the first
element's timestamp, not the highest observed orderingKey. -/
theorem C9_cursor_not_max :
    (fetchAgentResponses 0 true false (FetchResponse.ok [rawA, rawB])
      s0).cursor = some 5 ∧
    lookupId (fetchAgentResponses 0 true false
        (FetchResponse.ok [rawA, rawB]) s0).store "b" =
      some ⟨"b", "agent", "y", 9, none, false, false⟩ ∧
    ¬ ((9 : Int) ≤ 5) := by
  decide

/-- Claim C9, amended. -- After every successful poll whose normalized batch
is non-empty, the cursor passed as `since` on the next incremental fetch
is the timestamp of the *first* normalized event of that batch (the
backend's newest-first convention), not a computed maximum over all
events observed so far. -/
theorem C9_cursor_from_first_normalized (now : Int) (ini : Bool)
    (s : FetchState) (msgs : List RawItem) (m : Incoming)
    (hhead : (msgs.filterMap (buildAgentMessage now)).head? = some m) :
    sinceParam false (fetchAgentResponses now ini false
      (FetchResponse.ok msgs) s).cursor = m.timestamp := by
  have hmem : m ∈ msgs.filterMap (buildAgentMessage now) :=
    List.mem_of_mem_head? hhead
  obtain ⟨item, hitem, hbuild⟩ := List.mem_filterMap.mp hmem
  have hts := buildAgentMessage_timestamp hbuild
  have hne : (msgs.filterMap (buildAgentMessage now)).isEmpty = false := by
    cases hl : msgs.filterMap (buildAgentMessage now) with
    | nil => rw [hl] at hhead; cases hhead
    | cons a t => rfl
  simp [fetchAgentResponses, sinceParam, hne, hhead, hts]

/-- Claim C9, witness. -- -/
theorem C9_witness :
    ([rawA].filterMap (buildAgentMessage 0)).head? =
      some ⟨some "a", "agent", "x", some 5, none, false, false⟩ ∧
    sinceParam false (fetchAgentResponses 0 false false
        (FetchResponse.ok [rawA]) s0).cursor =
      (⟨some "a", "agent", "x", some 5, none, false, false⟩ :
        Incoming).timestamp :=
  ⟨by decide, C9_cursor_from_first_normalized 0 false s0 [rawA] _ (by decide)⟩

end ChatTerminal
